import Mathlib

/-!
The root command of secretctl and its entry point.

A shallow embedding of `src/go/cmd/root.go` (package `cmd`):

* `RunEFunc`, the named handler type;
* `rootCmd`, the package-level command descriptor built by a composite
  literal that sets `Use`, `Short` and `Long` only;
* `Execute`, which calls `rootCmd.Execute()` and calls `os.Exit(1)` when the
  returned error is not nil.

`rootCmd.Execute()` is a method of the imported library
`github.com/spf13/cobra`, which is not part of the source.  It is a parameter
of the embedding (`Framework`): the theorems about `Execute` hold for every
behaviour of that method.  Process state is explicit: the descriptor behind
the `rootCmd` pointer, the process arguments, and a trace of the effects
performed so far.

`cobraExecute` models that method on a fragment only: a root command without
subcommands, invoked with plain words.  Outside the fragment it is undefined,
and nothing proved for every framework depends on it.
-/

namespace Secretctl

/-! Data model -/

/-- A `*cobra.Command` handed to a handler: the path of command names that
leads from the root to the command. -/
abbrev CmdPtr := List String

/-- Source: `type RunEFunc func(cmd *cobra.Command, args []string) error`.
A Go `error` is `none` (nil) or `some e`. -/
def RunEFunc (ε : Type) : Type := CmdPtr → List String → Option ε

/-- The fields of `cobra.Command` that the source or the claims mention:
the three descriptive strings, the two handlers, the registered subcommands
and the names of the flags defined on the command. -/
structure Command (ε : Type) where
  Use : String
  Short : String
  Long : String
  Run : Option (CmdPtr → List String → Unit)
  RunE : Option (RunEFunc ε)
  commands : List (Command ε)
  flags : List String

/-- The Go zero value of `cobra.Command`: empty strings, nil handlers, no
subcommands, no flag set. -/
def Command.zero {ε : Type} : Command ε :=
  { Use := "", Short := "", Long := "", Run := none, RunE := none,
    commands := [], flags := [] }

/-- Source: `var rootCmd = &cobra.Command{Use: ..., Short: ..., Long: ...}`.
Every field the literal does not name keeps its zero value. -/
def rootCmd {ε : Type} : Command ε :=
  { (Command.zero : Command ε) with
    Use := "secretctl"
    Short := "A CLI to make secret handling easier"
    Long := "A CLI to make secret handling easier" }

mutual
/-- Number of nodes of a command tree. -/
def Command.size {ε : Type} : Command ε → Nat
  | ⟨_, _, _, _, _, cs, _⟩ => 1 + sizeList cs
/-- Number of nodes of a list of command trees. -/
def sizeList {ε : Type} : List (Command ε) → Nat
  | [] => 0
  | c :: cs => c.size + sizeList cs
end

mutual
/-- Number of handlers (`Run` or `RunE`) set anywhere in a command tree. -/
def Command.handlerCount {ε : Type} : Command ε → Nat
  | ⟨_, _, _, run, runE, cs, _⟩ =>
    (if run.isSome then 1 else 0) + (if runE.isSome then 1 else 0) + handlerCountList cs
/-- Number of handlers set in a list of command trees. -/
def handlerCountList {ε : Type} : List (Command ε) → Nat
  | [] => 0
  | c :: cs => c.handlerCount + handlerCountList cs
end

/-! Process state and effects -/

/-- An effect of the process that the claims speak about. -/
inductive Event where
  | rootCmdExecute (args : List String)
  | osExit (code : Int)
  deriving DecidableEq, Repr

/-- How a call ends: it returns to its caller, or the process has been
terminated by `os.Exit` with a status. -/
inductive Outcome where
  | returned
  | exited (code : Int)
  deriving DecidableEq, Repr

/-- The explicit state: the descriptor behind `rootCmd`, `os.Args[1:]`, and
the effects performed so far (oldest first). -/
structure Process (ε : Type) where
  rootCmd : Command ε
  args : List String
  trace : List Event

/-- The imported framework: `(*cobra.Command).Execute`.  It reads the process
arguments, may update the command behind the pointer, and returns an error
value (`none` is nil). -/
structure Framework (ε : Type) where
  Execute : Command ε → List String → Option ε × Command ε

/-- The call `os.Exit(code)`: the process terminates with that status. -/
def osExit {ε : Type} (code : Int) (p : Process ε) : Outcome × Process ε :=
  (Outcome.exited code, { p with trace := p.trace ++ [Event.osExit code] })

/-- Source: `func Execute()`.
```go
err := rootCmd.Execute()
if err != nil {
	os.Exit(1)
}
```
-/
def Execute {ε : Type} (fw : Framework ε) (p : Process ε) : Outcome × Process ε :=
  let r := fw.Execute p.rootCmd p.args
  let p1 : Process ε :=
    { p with rootCmd := r.2, trace := p.trace ++ [Event.rootCmdExecute p.args] }
  match r.1 with
  | some _ => osExit 1 p1
  | none => (Outcome.returned, p1)

/-- The status the process reports when `Execute` is the last thing it does:
the status given to `os.Exit`, or 0 when the call returns. -/
def exitCode : Outcome → Int
  | Outcome.returned => 0
  | Outcome.exited c => c

/-- Repeated invocations of `Execute` within one process: the next one runs
only if the previous one returned. -/
def ExecuteN {ε : Type} (fw : Framework ε) : Nat → Process ε → Outcome × Process ε
  | 0, p => (Outcome.returned, p)
  | n + 1, p =>
    match Execute fw p with
    | (Outcome.returned, p1) => ExecuteN fw n p1
    | (Outcome.exited c, p1) => (Outcome.exited c, p1)

/-- Number of `rootCmd.Execute()` calls recorded in a trace. -/
def delegatedCalls : List Event → Nat
  | [] => 0
  | Event.rootCmdExecute _ :: t => delegatedCalls t + 1
  | Event.osExit _ :: t => delegatedCalls t

/-- A framework leaves the descriptive fields of every command alone. -/
def Framework.KeepsDescriptor {ε : Type} (fw : Framework ε) : Prop :=
  ∀ (c : Command ε) (a : List String),
    (fw.Execute c a).2.Use = c.Use ∧ (fw.Execute c a).2.Short = c.Short ∧
      (fw.Execute c a).2.Long = c.Long

/-! The imported framework on the fragment the claims need -/

/-- The library's `(*Command).Name`: `Use` up to its first space. -/
def Command.Name {ε : Type} (c : Command ε) : String :=
  String.mk (c.Use.toList.takeWhile (fun ch => ch != ' '))

/-- The library's `(*Command).HasSubCommands`. -/
def Command.HasSubCommands {ε : Type} (c : Command ε) : Bool :=
  !c.commands.isEmpty

/-- The library's `(*Command).Runnable`: `Run` or `RunE` is set. -/
def Command.Runnable {ε : Type} (c : Command ε) : Bool :=
  c.Run.isSome || c.RunE.isSome

/-- The library's `(*Command).InitDefaultHelpFlag`: the flag `help` is
defined on the command unless it is there already. -/
def Command.InitDefaultHelpFlag {ε : Type} (c : Command ε) : Command ε :=
  if c.flags.contains "help" then c else { c with flags := c.flags ++ ["help"] }

/-- A plain word: a non-empty argument that does not start with a dash, so
that neither the library's `stripFlags` drops it nor its flag parser reads it
as a flag. -/
def plainWord (s : String) : Bool :=
  match s.toList with
  | [] => false
  | ch :: _ => ch != '-'

/-- The command names the library resolves on its own even when the program
registers no subcommand: the hidden completion request command, its alias,
and the default `completion` command. -/
def generatedNames : List String := ["__complete", "__completeNoDesc", "completion"]

/-- The fragment of invocations the model covers: a root command without
subcommands, arguments that are all plain words, and a first argument that is
none of the generated names. -/
def inFragment {ε : Type} (c : Command ε) (args : List String) : Bool :=
  !c.HasSubCommands && args.all plainWord && !generatedNames.contains (args.headD "")

/-- What the library's `(*Command).execute` returns: `flag.ErrHelp`, or
another error with its message. -/
inductive ExecError where
  | ErrHelp
  | failure (msg : String)
  deriving DecidableEq, Repr

/-- Modelled from the spec: the handler-invocation step of the external
collaborator, `(*Command).execute` of the imported library, whose code is not
in the source; on the fragment, where the arguments hold no flag.  A command
that is not runnable yields `flag.ErrHelp`; otherwise `RunE`, or else `Run`,
is invoked with the arguments, and the error of `RunE` is returned. -/
def Command.execute (c : Command String) (a : List String) : Option ExecError :=
  if !c.Runnable then some ExecError.ErrHelp
  else
    match c.RunE with
    | some runE => (runE [c.Name] a).map ExecError.failure
    | none => none

/-- Modelled from the spec: the `Execute`-style method of the external
collaborator, `(*cobra.Command).Execute` of the imported library, whose code
is not in the source.  The spec names its steps (parsing, subcommand
resolution, handler invocation, returning an error value); what the steps do
is taken from the library, on the fragment `inFragment` only, and the result is
`none` outside it.  On the fragment no argument names a command, so `Find`
resolves the root itself, and `legacyArgs` lets a command without subcommands
take any arguments.  `execute` defines the help flag and runs; `ExecuteC`
answers `flag.ErrHelp` by printing the help text and returning nil, and
returns any other error. -/
def cobraExecute (c : Command String) (args : List String) :
    Option (Option String × Command String) :=
  if inFragment c args then
    match c.execute args with
    | some ExecError.ErrHelp => some (none, c.InitDefaultHelpFlag)
    | some (ExecError.failure msg) => some (some msg, c.InitDefaultHelpFlag)
    | none => some (none, c.InitDefaultHelpFlag)
  else none

/-- A framework that follows the library: `cobraExecute` on the fragment.
Outside the fragment, where the library is not modelled, it stands for no
library behaviour: it reports an error and leaves the descriptor alone. -/
def cobra : Framework String :=
  { Execute := fun c a => (cobraExecute c a).getD (some "not modelled", c) }

/-- A framework whose `Execute` always returns the error `e`. -/
def failWith {ε : Type} (e : ε) : Framework ε :=
  { Execute := fun c _ => (some e, c) }

end Secretctl

namespace Secretctl

/-! Helper lemmas -/

lemma Execute_outcome {ε : Type} (fw : Framework ε) (p : Process ε) :
    (Execute fw p).1 =
      match (fw.Execute p.rootCmd p.args).1 with
      | some _ => Outcome.exited 1
      | none => Outcome.returned := by
  unfold Execute
  dsimp only
  cases (fw.Execute p.rootCmd p.args).1 <;> rfl

lemma Execute_rootCmd {ε : Type} (fw : Framework ε) (p : Process ε) :
    (Execute fw p).2.rootCmd = (fw.Execute p.rootCmd p.args).2 := by
  unfold Execute
  dsimp only
  cases (fw.Execute p.rootCmd p.args).1 <;> rfl

lemma Execute_trace {ε : Type} (fw : Framework ε) (p : Process ε) :
    (Execute fw p).2.trace =
      p.trace ++ Event.rootCmdExecute p.args ::
        (match (fw.Execute p.rootCmd p.args).1 with
         | some _ => [Event.osExit 1]
         | none => []) := by
  unfold Execute
  dsimp only
  cases (fw.Execute p.rootCmd p.args).1 <;> simp [osExit]

lemma delegatedCalls_append (s t : List Event) :
    delegatedCalls (s ++ t) = delegatedCalls s + delegatedCalls t := by
  induction s with
  | nil => simp [delegatedCalls]
  | cons e s ih =>
    cases e with
    | rootCmdExecute a => simp [delegatedCalls, ih]; omega
    | osExit c => simp [delegatedCalls, ih]

lemma ExecuteN_succ_returned {ε : Type} (fw : Framework ε) (n : Nat) (p : Process ε)
    (h : (Execute fw p).1 = Outcome.returned) :
    ExecuteN fw (n + 1) p = ExecuteN fw n (Execute fw p).2 := by
  rw [ExecuteN]
  rcases hx : Execute fw p with ⟨o, p1⟩
  rw [hx] at h
  simp only at h
  subst h
  rfl

lemma ExecuteN_succ_exited {ε : Type} (fw : Framework ε) (n : Nat) (p : Process ε) (c : Int)
    (h : (Execute fw p).1 = Outcome.exited c) :
    ExecuteN fw (n + 1) p = (Outcome.exited c, (Execute fw p).2) := by
  rw [ExecuteN]
  rcases hx : Execute fw p with ⟨o, p1⟩
  rw [hx] at h
  simp only at h
  subst h
  rfl

lemma InitDefaultHelpFlag_descriptor {ε : Type} (c : Command ε) :
    c.InitDefaultHelpFlag.Use = c.Use ∧ c.InitDefaultHelpFlag.Short = c.Short ∧
      c.InitDefaultHelpFlag.Long = c.Long := by
  unfold Command.InitDefaultHelpFlag
  split <;> exact ⟨rfl, rfl, rfl⟩

lemma cobraExecute_snd (c : Command String) (a : List String)
    (r : Option String × Command String) (h : cobraExecute c a = some r) :
    r.2 = c.InitDefaultHelpFlag := by
  unfold cobraExecute at h
  split at h
  · split at h <;> (cases h; rfl)
  · cases h

lemma cobra_keepsDescriptor : cobra.KeepsDescriptor := by
  intro c a
  show ((cobraExecute c a).getD (some "not modelled", c)).2.Use = c.Use ∧
      ((cobraExecute c a).getD (some "not modelled", c)).2.Short = c.Short ∧
      ((cobraExecute c a).getD (some "not modelled", c)).2.Long = c.Long
  cases h : cobraExecute c a with
  | none => exact ⟨rfl, rfl, rfl⟩
  | some r =>
    rw [Option.getD_some, cobraExecute_snd c a r h]
    exact InitDefaultHelpFlag_descriptor c

lemma ExecuteN_descriptor {ε : Type} (fw : Framework ε) (hfw : fw.KeepsDescriptor)
    (n : Nat) (p : Process ε) :
    (ExecuteN fw n p).2.rootCmd.Use = p.rootCmd.Use ∧
      (ExecuteN fw n p).2.rootCmd.Short = p.rootCmd.Short ∧
      (ExecuteN fw n p).2.rootCmd.Long = p.rootCmd.Long := by
  induction n generalizing p with
  | zero => exact ⟨rfl, rfl, rfl⟩
  | succ n ih =>
    have hstep := hfw p.rootCmd p.args
    rw [← Execute_rootCmd fw p] at hstep
    cases ho : (Execute fw p).1 with
    | returned =>
      rw [ExecuteN_succ_returned fw n p ho]
      have h := ih (Execute fw p).2
      exact ⟨h.1.trans hstep.1, h.2.1.trans hstep.2.1, h.2.2.trans hstep.2.2⟩
    | exited c =>
      rw [ExecuteN_succ_exited fw n p c ho]
      exact hstep

/-! Claims -/

/-- C1: whenever the delegated `rootCmd.Execute()` returns a non-nil error,
`Execute` ends the process through `os.Exit` with status exactly 1, and two
runs that fail with any two error values end with the same status. -/
theorem Execute_error_exits_one {ε : Type} (fw1 fw2 : Framework ε) (p1 p2 : Process ε)
    (e1 e2 : ε)
    (h1 : (fw1.Execute p1.rootCmd p1.args).1 = some e1)
    (h2 : (fw2.Execute p2.rootCmd p2.args).1 = some e2) :
    (Execute fw1 p1).1 = Outcome.exited 1 ∧
      exitCode (Execute fw1 p1).1 = 1 ∧
      (Execute fw2 p2).1 = (Execute fw1 p1).1 := by
  have a1 : (Execute fw1 p1).1 = Outcome.exited 1 := by
    rw [Execute_outcome, h1]
  have a2 : (Execute fw2 p2).1 = Outcome.exited 1 := by
    rw [Execute_outcome, h2]
  refine ⟨a1, ?_, ?_⟩
  · rw [a1]; rfl
  · rw [a1, a2]

/-- Witness of C1: two frameworks failing with different error values on the
declared root command. -/
theorem Execute_error_exits_one_witness :
    (Execute (failWith "unknown shorthand flag")
        { rootCmd := rootCmd, args := ["-x"], trace := [] }).1 = Outcome.exited 1 ∧
      exitCode (Execute (failWith "unknown shorthand flag")
        { rootCmd := rootCmd, args := ["-x"], trace := [] }).1 = 1 ∧
      (Execute (failWith "boom") { rootCmd := rootCmd, args := [], trace := [] }).1 =
        (Execute (failWith "unknown shorthand flag")
          { rootCmd := rootCmd, args := ["-x"], trace := [] }).1 :=
  Execute_error_exits_one (failWith "unknown shorthand flag") (failWith "boom")
    { rootCmd := rootCmd, args := ["-x"], trace := [] }
    { rootCmd := rootCmd, args := [], trace := [] }
    "unknown shorthand flag" "boom" rfl rfl

/-- C2: when the delegated `rootCmd.Execute()` returns nil, `Execute` returns
to its caller without calling `os.Exit` (the only new effect in the trace is
the delegated call), so the exit code is 0; and for every run the exit code is
1 exactly when the delegated call returned a non-nil error. -/
theorem Execute_nil_returns {ε : Type} (fw : Framework ε) (p : Process ε)
    (h : (fw.Execute p.rootCmd p.args).1 = none) :
    (Execute fw p).1 = Outcome.returned ∧
      (Execute fw p).2.trace = p.trace ++ [Event.rootCmdExecute p.args] ∧
      exitCode (Execute fw p).1 = 0 ∧
      ∀ (fw2 : Framework ε) (p2 : Process ε),
        (exitCode (Execute fw2 p2).1 = 1 ↔
          (fw2.Execute p2.rootCmd p2.args).1.isSome = true) := by
  have a : (Execute fw p).1 = Outcome.returned := by
    rw [Execute_outcome, h]
  refine ⟨a, ?_, ?_, ?_⟩
  · rw [Execute_trace, h]
  · rw [a]; rfl
  · intro fw2 p2
    rw [Execute_outcome]
    cases (fw2.Execute p2.rootCmd p2.args).1 <;> simp [exitCode]

/-- Witness of C2: the framework model on the declared root command with no
arguments returns nil. -/
theorem Execute_nil_returns_witness :
    (Execute cobra { rootCmd := rootCmd, args := [], trace := [] }).1 = Outcome.returned ∧
      (Execute cobra { rootCmd := rootCmd, args := [], trace := [] }).2.trace =
        [] ++ [Event.rootCmdExecute []] ∧
      exitCode (Execute cobra { rootCmd := rootCmd, args := [], trace := [] }).1 = 0 ∧
      ∀ (fw2 : Framework String) (p2 : Process String),
        (exitCode (Execute fw2 p2).1 = 1 ↔
          (fw2.Execute p2.rootCmd p2.args).1.isSome = true) :=
  Execute_nil_returns cobra { rootCmd := rootCmd, args := [], trace := [] } rfl

/-- C4: the `Use` field of the declared root command is the literal string
`secretctl`. -/
theorem rootCmd_Use (ε : Type) : (rootCmd : Command ε).Use = "secretctl" := rfl

/-- C5: the `Short` and `Long` texts of the declared root command are equal
and both are the literal string `A CLI to make secret handling easier`. -/
theorem rootCmd_Short_Long (ε : Type) :
    (rootCmd : Command ε).Short = (rootCmd : Command ε).Long ∧
      (rootCmd : Command ε).Short = "A CLI to make secret handling easier" ∧
      (rootCmd : Command ε).Long = "A CLI to make secret handling easier" :=
  ⟨rfl, rfl, rfl⟩

/-- C6: with a framework that leaves the descriptive fields alone, any number
of repeated invocations of `Execute` that return leave `Use`, `Short` and
`Long` of the descriptor as they were; the code of `Execute` itself writes to
none of them: the descriptor after a call is the one the delegated call left. -/
theorem ExecuteN_keeps_descriptor {ε : Type} (fw : Framework ε) (hfw : fw.KeepsDescriptor)
    (n : Nat) (p : Process ε) (hret : (ExecuteN fw n p).1 = Outcome.returned) :
    ((ExecuteN fw n p).2.rootCmd.Use = p.rootCmd.Use ∧
        (ExecuteN fw n p).2.rootCmd.Short = p.rootCmd.Short ∧
        (ExecuteN fw n p).2.rootCmd.Long = p.rootCmd.Long) ∧
      (Execute fw p).2.rootCmd = (fw.Execute p.rootCmd p.args).2 := by
  have _ := hret
  exact ⟨ExecuteN_descriptor fw hfw n p, Execute_rootCmd fw p⟩

/-- Witness of C6: three invocations on the declared root command under the
framework model, all of which return. -/
theorem ExecuteN_keeps_descriptor_witness :
    ((ExecuteN cobra 3 { rootCmd := rootCmd, args := ["status"], trace := [] }).2.rootCmd.Use =
          (rootCmd : Command String).Use ∧
        (ExecuteN cobra 3 { rootCmd := rootCmd, args := ["status"], trace := [] }).2.rootCmd.Short =
          (rootCmd : Command String).Short ∧
        (ExecuteN cobra 3 { rootCmd := rootCmd, args := ["status"], trace := [] }).2.rootCmd.Long =
          (rootCmd : Command String).Long) ∧
      (Execute cobra { rootCmd := rootCmd, args := ["status"], trace := [] }).2.rootCmd =
        (cobra.Execute rootCmd ["status"]).2 :=
  ExecuteN_keeps_descriptor cobra cobra_keepsDescriptor 3
    { rootCmd := rootCmd, args := ["status"], trace := [] } rfl

/-- C7: the declared root command has no subcommands, no flags, no `Run` and
no `RunE`; the tree handed to the framework is one node whose fields other
than `Use`, `Short` and `Long` have their zero values, and no handler (hence no
`RunEFunc` value) occurs anywhere in it. -/
theorem rootCmd_single_node (ε : Type) :
    (rootCmd : Command ε).commands = [] ∧
      (rootCmd : Command ε).flags = [] ∧
      (rootCmd : Command ε).Run.isNone = true ∧
      (rootCmd : Command ε).RunE.isNone = true ∧
      (rootCmd : Command ε).size = 1 ∧
      (rootCmd : Command ε).handlerCount = 0 ∧
      (rootCmd : Command ε) =
        { (Command.zero : Command ε) with
          Use := (rootCmd : Command ε).Use
          Short := (rootCmd : Command ε).Short
          Long := (rootCmd : Command ε).Long } :=
  ⟨rfl, rfl, rfl, rfl, rfl, rfl, rfl⟩

/-- C8: every call of `Execute` performs the delegated `rootCmd.Execute()`
exactly once: the trace grows by one delegated call, followed by `os.Exit(1)`
and nothing else when the call returned an error, and by nothing when it
returned nil; on an error the outcome is the exit with status 1. -/
theorem Execute_delegates_once {ε : Type} (fw : Framework ε) (p : Process ε) :
    delegatedCalls (Execute fw p).2.trace = delegatedCalls p.trace + 1 ∧
      (Execute fw p).2.trace =
        p.trace ++ Event.rootCmdExecute p.args ::
          (match (fw.Execute p.rootCmd p.args).1 with
           | some _ => [Event.osExit 1]
           | none => []) ∧
      (Execute fw p).1 =
        (match (fw.Execute p.rootCmd p.args).1 with
         | some _ => Outcome.exited 1
         | none => Outcome.returned) := by
  refine ⟨?_, Execute_trace fw p, Execute_outcome fw p⟩
  rw [Execute_trace, delegatedCalls_append]
  cases (fw.Execute p.rootCmd p.args).1 <;> simp [delegatedCalls]

end Secretctl
